import Mathlib

/- Shallow embedding of the RISC-V TLM simulator core: the instruction decoder
   of src/inc/Instruction.h and the TLM memory target of src/inc/Memory.h.
   Instruction words are modelled as natural numbers holding the 32-bit
   pattern; the int32_t values returned by the C++ accessors are modelled as
   mathematical integers obtained through toInt32. -/

/-- Interpretation of a 32-bit pattern as a signed int32_t value
(two-complement), modelling the C++ return type of the accessors. -/
def toInt32 (n : Nat) : Int :=
  if n % 2 ^ 32 < 2 ^ 31 then ((n % 2 ^ 32 : Nat) : Int)
  else ((n % 2 ^ 32 : Nat) : Int) - 2 ^ 32

/-- Model of the SystemC bit slice m_instr.range(hi, lo): the bits hi..lo of
the word, zero extended. -/
def range (w hi lo : Nat) : Nat := (w >>> lo) % 2 ^ (hi - lo + 1)

/-- Model of the SystemC bit select m_instr[i]: bit i of the word, as 0 or 1. -/
def bit (w i : Nat) : Nat := (w >>> i) % 2

/-- Instruction::opcode, bits 6:0. -/
def opcode (w : Nat) : Int := toInt32 (range w 6 0)

/-- Instruction::rd, bits 11:7. -/
def rd (w : Nat) : Int := toInt32 (range w 11 7)

/-- Instruction::funct3, bits 14:12. -/
def funct3 (w : Nat) : Int := toInt32 (range w 14 12)

/-- Instruction::rs1, bits 19:15. -/
def rs1 (w : Nat) : Int := toInt32 (range w 19 15)

/-- Instruction::rs2, bits 24:20. -/
def rs2 (w : Nat) : Int := toInt32 (range w 24 20)

/-- Instruction::funct7, bits 31:25. -/
def funct7 (w : Nat) : Int := toInt32 (range w 31 25)

/-- Instruction::imm_I: bits 31:20, then the sign extension step
aux |= 0b11111111111111111111 << 12 when bit 31 is set. -/
def imm_I (w : Nat) : Int :=
  let aux := range w 31 20
  let aux2 := if bit w 31 = 1 then aux ||| 0b11111111111111111111 <<< 12 else aux
  toInt32 aux2

/-- Instruction::imm_S: bits 31:25 shifted to 11:5, bits 11:7 at 4:0, then the
same sign extension step as imm_I. -/
def imm_S (w : Nat) : Int :=
  let aux := range w 31 25 <<< 5
  let aux2 := aux ||| range w 11 7
  let aux3 := if bit w 31 = 1 then aux2 ||| 0b11111111111111111111 <<< 12 else aux2
  toInt32 aux3

/-- Instruction::imm_U: bits 31:12, zero extended, no sign extension step. -/
def imm_U (w : Nat) : Int := toInt32 (range w 31 12)

/-- Instruction::imm_B: bit 7 to position 11, bits 30:25 to 10:5, bit 31 to
position 12, bits 11:8 to 4:1, then the same sign extension step as imm_I. -/
def imm_B (w : Nat) : Int :=
  let a1 := 0 ||| bit w 7 <<< 11
  let a2 := a1 ||| range w 30 25 <<< 5
  let a3 := a2 ||| bit w 31 <<< 12
  let a4 := a3 ||| range w 11 8 <<< 1
  let a5 := if bit w 31 = 1 then a4 ||| 0b11111111111111111111 <<< 12 else a4
  toInt32 a5

/-- Instruction::imm_J: bit 31 to position 20, bits 19:12 kept at 19:12,
bit 20 to position 11, bits 30:21 to 10:1, then the sign extension step
aux |= 0b111111111111 << 20 when bit 31 is set. -/
def imm_J (w : Nat) : Int :=
  let a1 := bit w 31 <<< 20
  let a2 := a1 ||| range w 19 12 <<< 12
  let a3 := a2 ||| bit w 20 <<< 11
  let a4 := a3 ||| range w 30 21 <<< 1
  let a5 := if bit w 31 = 1 then a4 ||| 0b111111111111 <<< 20 else a4
  toInt32 a5

/-- Instruction::csr: the source returns imm_I() unchanged. -/
def csr (w : Nat) : Int := imm_I w

/-- Closed enumeration of decoded RV32I operation tags, from the opCodes
typedef of src/inc/Instruction.h. -/
inductive opCodes where
  | OP_LUI | OP_AUIPC | OP_JAL | OP_JALR
  | OP_BEQ | OP_BNE | OP_BLT | OP_BGE | OP_BLTU | OP_BGEU
  | OP_LB | OP_LH | OP_LW | OP_LBU | OP_LHU
  | OP_SB | OP_SH | OP_SW
  | OP_ADDI | OP_SLTI | OP_SLTIU | OP_XORI | OP_ORI | OP_ANDI
  | OP_SLLI | OP_SRLI | OP_SRAI
  | OP_ADD | OP_SUB | OP_SLL | OP_SLT | OP_SLTU | OP_XOR | OP_SRL | OP_SRA
  | OP_OR | OP_AND
  | OP_ERROR
  deriving DecidableEq

open opCodes

/-- Modelled from the spec: the body of Instruction::decode is not under src/
(only its declaration is). Two level dispatch per spec section 4.1: the opcode
selects a major family, funct3 selects the operation inside the branch, load,
store, immediate and register families, and funct7 (0b0000000 against
0b0100000, the constants SRLI_F7, SRAI_F7, ADD_F7, SUB_F7, SRL_F7, SRA_F7 of
the Codes typedef) breaks the ADD/SUB, SRL/SRA and SRLI/SRAI ties. Every
combination outside the table yields OP_ERROR. -/
def decodeFields (op f3 f7 : Int) : opCodes :=
  if op = 0b0110111 then OP_LUI
  else if op = 0b0010111 then OP_AUIPC
  else if op = 0b1101111 then OP_JAL
  else if op = 0b1100111 then OP_JALR
  else if op = 0b1100011 then
    if f3 = 0b000 then OP_BEQ
    else if f3 = 0b001 then OP_BNE
    else if f3 = 0b100 then OP_BLT
    else if f3 = 0b101 then OP_BGE
    else if f3 = 0b110 then OP_BLTU
    else if f3 = 0b111 then OP_BGEU
    else OP_ERROR
  else if op = 0b0000011 then
    if f3 = 0b000 then OP_LB
    else if f3 = 0b001 then OP_LH
    else if f3 = 0b010 then OP_LW
    else if f3 = 0b100 then OP_LBU
    else if f3 = 0b101 then OP_LHU
    else OP_ERROR
  else if op = 0b0100011 then
    if f3 = 0b000 then OP_SB
    else if f3 = 0b001 then OP_SH
    else if f3 = 0b010 then OP_SW
    else OP_ERROR
  else if op = 0b0010011 then
    if f3 = 0b000 then OP_ADDI
    else if f3 = 0b010 then OP_SLTI
    else if f3 = 0b011 then OP_SLTIU
    else if f3 = 0b100 then OP_XORI
    else if f3 = 0b110 then OP_ORI
    else if f3 = 0b111 then OP_ANDI
    else if f3 = 0b001 then OP_SLLI
    else if f3 = 0b101 then
      if f7 = 0b0000000 then OP_SRLI
      else if f7 = 0b0100000 then OP_SRAI
      else OP_ERROR
    else OP_ERROR
  else if op = 0b0110011 then
    if f3 = 0b000 then
      if f7 = 0b0000000 then OP_ADD
      else if f7 = 0b0100000 then OP_SUB
      else OP_ERROR
    else if f3 = 0b001 then OP_SLL
    else if f3 = 0b010 then OP_SLT
    else if f3 = 0b011 then OP_SLTU
    else if f3 = 0b100 then OP_XOR
    else if f3 = 0b101 then
      if f7 = 0b0000000 then OP_SRL
      else if f7 = 0b0100000 then OP_SRA
      else OP_ERROR
    else if f3 = 0b110 then OP_OR
    else if f3 = 0b111 then OP_AND
    else OP_ERROR
  else OP_ERROR

/-- Modelled from the spec: Instruction::decode reads the three dispatch
fields of the wrapped word and applies the table dispatch. -/
def decode (w : Nat) : opCodes := decodeFields (opcode w) (funct3 w) (funct7 w)

/-- Specification side enumeration of the known table entries: the
(opcode, funct3, funct7) combinations listed by the Codes typedef of
src/inc/Instruction.h. -/
def knownEntry (op f3 f7 : Int) : Prop :=
  op = 0b0110111 ∨ op = 0b0010111 ∨ op = 0b1101111 ∨ op = 0b1100111 ∨
  (op = 0b1100011 ∧
    (f3 = 0b000 ∨ f3 = 0b001 ∨ f3 = 0b100 ∨ f3 = 0b101 ∨ f3 = 0b110 ∨ f3 = 0b111)) ∨
  (op = 0b0000011 ∧
    (f3 = 0b000 ∨ f3 = 0b001 ∨ f3 = 0b010 ∨ f3 = 0b100 ∨ f3 = 0b101)) ∨
  (op = 0b0100011 ∧ (f3 = 0b000 ∨ f3 = 0b001 ∨ f3 = 0b010)) ∨
  (op = 0b0010011 ∧
    (f3 = 0b000 ∨ f3 = 0b001 ∨ f3 = 0b010 ∨ f3 = 0b011 ∨ f3 = 0b100 ∨
     f3 = 0b110 ∨ f3 = 0b111 ∨
     (f3 = 0b101 ∧ (f7 = 0b0000000 ∨ f7 = 0b0100000)))) ∨
  (op = 0b0110011 ∧
    (f3 = 0b001 ∨ f3 = 0b010 ∨ f3 = 0b011 ∨ f3 = 0b100 ∨ f3 = 0b110 ∨ f3 = 0b111 ∨
     ((f3 = 0b000 ∨ f3 = 0b101) ∧ (f7 = 0b0000000 ∨ f7 = 0b0100000))))

/-- Memory::SIZE, the fixed capacity of the memory array. -/
def SIZE : Nat := 1024

/-- One TLM generic payload, as far as the memory target reads it: address,
length, direction and the write payload. -/
structure Transaction where
  addr : Nat
  len : Nat
  isWrite : Bool
  data : List Int

/-- TLM response status as the memory target sets it. -/
inductive TlmResponse where
  | ok
  | addressError
  deriving DecidableEq

/-- Modelled from the spec: the body of Memory::b_transport is not under src/
(only its declaration is). Per spec sections 3 and 4.2 the target validates
that address plus length lies within the half open range [0, SIZE) of the
backing array; on failure it reports a bounds fault and performs no read or
write, on success it moves the data between the payload and the array. The
result is the response status, the new memory contents and the read data. -/
def b_transport (mem : Nat → Int) (t : Transaction) : TlmResponse × (Nat → Int) × List Int :=
  if t.addr + t.len < SIZE then
    if t.isWrite then
      (TlmResponse.ok,
       fun a => if t.addr ≤ a ∧ a < t.addr + t.len then t.data.getD (a - t.addr) 0 else mem a,
       [])
    else
      (TlmResponse.ok, mem, (List.range t.len).map fun i => mem (t.addr + i))
  else (TlmResponse.addressError, mem, [])

/-- Encoder for the I format immediate, from the claim text: the low 12 bits
of the displacement are placed at bits 31:20 of the word. -/
def encode_I (v : Int) : Nat := (v % 4096).toNat <<< 20

/-- Encoder for the S format immediate: displacement bits 11:5 go to word
bits 31:25 and displacement bits 4:0 go to word bits 11:7. -/
def encode_S (v : Int) : Nat :=
  ((v % 4096).toNat / 32) <<< 25 + ((v % 4096).toNat % 32) <<< 7

/-- Encoder for the B format immediate: displacement bit 12 goes to word
bit 31, bits 10:5 to 30:25, bit 11 to word bit 7 and bits 4:1 to 11:8. -/
def encode_B (v : Int) : Nat :=
  ((v % 8192).toNat / 4096) <<< 31 + ((v % 8192).toNat / 32 % 64) <<< 25 +
  ((v % 8192).toNat / 2 % 16) <<< 8 + ((v % 8192).toNat / 2048 % 2) <<< 7

/-- Encoder for the J format immediate: displacement bit 20 goes to word
bit 31, bits 10:1 to 30:21, bit 11 to word bit 20 and bits 19:12 stay
at 19:12. -/
def encode_J (v : Int) : Nat :=
  ((v % 2097152).toNat / 1048576) <<< 31 + ((v % 2097152).toNat / 2 % 1024) <<< 21 +
  ((v % 2097152).toNat / 2048 % 2) <<< 20 + ((v % 2097152).toNat / 4096 % 256) <<< 12

/- Helper lemmas: arithmetic characterizations of the bit operations. -/

theorem tb_low {k i : Nat} (x m : Nat) (h : i < k) :
    (x + 2 ^ k * m).testBit i = x.testBit i := by
  rw [Nat.testBit_to_div_mod, Nat.testBit_to_div_mod]
  have h1 : (2 : Nat) ^ k * m = 2 * (2 ^ (k - i - 1) * m) * 2 ^ i := by
    have hk : k = i + 1 + (k - i - 1) := by omega
    calc (2 : Nat) ^ k * m = 2 ^ (i + 1 + (k - i - 1)) * m := by rw [← hk]
      _ = 2 * (2 ^ (k - i - 1) * m) * 2 ^ i := by rw [pow_add, pow_add, pow_one]; ring
  rw [h1, Nat.add_mul_div_right _ _ (Nat.two_pow_pos i), Nat.add_mul_mod_self_left]

theorem tb_high {k : Nat} (x m : Nat) (j : Nat) (hx : x < 2 ^ k) :
    (x + 2 ^ k * m).testBit (k + j) = m.testBit j := by
  rw [Nat.testBit_to_div_mod, Nat.testBit_to_div_mod]
  have h1 : (x + 2 ^ k * m) / 2 ^ (k + j) = m / 2 ^ j := by
    rw [pow_add, ← Nat.div_div_eq_div_mul,
      Nat.add_mul_div_left _ _ (Nat.two_pow_pos k), Nat.div_eq_of_lt hx, Nat.zero_add]
  rw [h1]

theorem lor_lt_two_pow {k x y : Nat} (hx : x < 2 ^ k) (hy : y < 2 ^ k) :
    x ||| y < 2 ^ k :=
  Nat.bitwise_lt_two_pow hx hy

theorem lor_split (k x y c d : Nat) (hx : x < 2 ^ k) (hy : y < 2 ^ k) :
    (x + 2 ^ k * c) ||| (y + 2 ^ k * d) = (x ||| y) + 2 ^ k * (c ||| d) := by
  apply Nat.eq_of_testBit_eq
  intro i
  rcases Nat.lt_or_ge i k with h | h
  · rw [Nat.testBit_lor, tb_low x c h, tb_low y d h, tb_low (x ||| y) (c ||| d) h,
      Nat.testBit_lor]
  · obtain ⟨j, rfl⟩ : ∃ j, i = k + j := ⟨i - k, by omega⟩
    rw [Nat.testBit_lor, tb_high x c j hx, tb_high y d j hy,
      tb_high (x ||| y) (c ||| d) j (lor_lt_two_pow hx hy), Nat.testBit_lor]

theorem lor_low_high (k x y : Nat) (hx : x < 2 ^ k) (hy : y % 2 ^ k = 0) :
    x ||| y = x + y := by
  have hpos : (0 : Nat) < 2 ^ k := Nat.two_pow_pos k
  have hsplit := lor_split k x 0 0 (y / 2 ^ k) hx hpos
  rw [Nat.or_zero, Nat.zero_or] at hsplit
  have hdvd : 2 ^ k ∣ y := Nat.dvd_of_mod_eq_zero hy
  have e1 : x + 2 ^ k * 0 = x := by ring
  have e2 : 0 + 2 ^ k * (y / 2 ^ k) = y := by rw [Nat.zero_add, Nat.mul_div_cancel' hdvd]
  rw [e1, e2] at hsplit
  rw [hsplit, Nat.mul_div_cancel' hdvd]

theorem one_lor_odd (u : Nat) : 1 ||| (2 * u + 1) = 2 * u + 1 := by
  have hsplit := lor_split 1 1 1 0 u (by omega) (by omega)
  rw [Nat.zero_or, Nat.or_self] at hsplit
  have e1 : (1 : Nat) + 2 ^ 1 * 0 = 1 := by norm_num
  have e2 : (1 : Nat) + 2 ^ 1 * u = 2 * u + 1 := by ring
  rw [e1, e2] at hsplit
  rw [hsplit]

theorem lor_absorb (k x s : Nat) (hx : x < 2 ^ k) (hs : s % 2 ^ (k + 1) = 2 ^ k) :
    (x + 2 ^ k) ||| s = x + s := by
  have hp : (2 : Nat) ^ (k + 1) = 2 * 2 ^ k := by rw [pow_succ]; ring
  have hsu : s = 2 ^ k * (2 * (s / 2 ^ (k + 1)) + 1) := by
    have hd := Nat.div_add_mod s (2 ^ (k + 1))
    calc s = 2 ^ (k + 1) * (s / 2 ^ (k + 1)) + s % 2 ^ (k + 1) := hd.symm
      _ = 2 ^ (k + 1) * (s / 2 ^ (k + 1)) + 2 ^ k := by rw [hs]
      _ = 2 ^ k * (2 * (s / 2 ^ (k + 1)) + 1) := by rw [hp]; ring
  have hsplit := lor_split k x 0 1 (2 * (s / 2 ^ (k + 1)) + 1) hx (Nat.two_pow_pos k)
  rw [Nat.or_zero, one_lor_odd] at hsplit
  have e1 : x + 2 ^ k * 1 = x + 2 ^ k := by ring
  have e2 : 0 + 2 ^ k * (2 * (s / 2 ^ (k + 1)) + 1) = s := by rw [Nat.zero_add, ← hsu]
  rw [e1, e2] at hsplit
  rw [hsplit, ← hsu]


theorem range_eq (w hi lo : Nat) : range w hi lo = w / 2 ^ lo % 2 ^ (hi - lo + 1) := by
  unfold range
  rw [Nat.shiftRight_eq_div_pow]

theorem bit_eq (w i : Nat) : bit w i = w / 2 ^ i % 2 := by
  unfold bit
  rw [Nat.shiftRight_eq_div_pow]

theorem range_lt (w hi lo : Nat) : range w hi lo < 2 ^ (hi - lo + 1) :=
  Nat.mod_lt _ (Nat.two_pow_pos _)

theorem bit_lt (w i : Nat) : bit w i < 2 :=
  Nat.mod_lt _ (by omega)

theorem toInt32_lt {n : Nat} (h : n < 2 ^ 31) : toInt32 n = (n : Int) := by
  unfold toInt32
  rw [Nat.mod_eq_of_lt (by omega)]
  rw [if_pos h]

theorem toInt32_high {n : Nat} (h1 : 2 ^ 31 ≤ n) (h2 : n < 2 ^ 32) :
    toInt32 n = (n : Int) - 2 ^ 32 := by
  unfold toInt32
  rw [Nat.mod_eq_of_lt h2]
  rw [if_neg (by omega)]

theorem imm_I_eq (w : Nat) :
    imm_I w = if bit w 31 = 1 then ((range w 31 20 : Nat) : Int) - 4096
              else ((range w 31 20 : Nat) : Int) := by
  have hr : range w 31 20 < 2 ^ 12 := range_lt w 31 20
  simp only [imm_I]
  by_cases h31 : bit w 31 = 1
  · rw [if_pos h31, if_pos h31]
    have hlor : range w 31 20 ||| 0b11111111111111111111 <<< 12 =
        range w 31 20 + 0xFFFFF000 := by
      rw [Nat.shiftLeft_eq]
      exact lor_low_high 12 _ _ hr (by norm_num)
    rw [hlor, toInt32_high (by omega) (by omega)]
    push_cast
    omega
  · rw [if_neg h31, if_neg h31]
    exact toInt32_lt (by omega)

theorem imm_S_eq (w : Nat) :
    imm_S w = if bit w 31 = 1
              then ((range w 31 25 * 2 ^ 5 + range w 11 7 : Nat) : Int) - 4096
              else ((range w 31 25 * 2 ^ 5 + range w 11 7 : Nat) : Int) := by
  have hr1 : range w 31 25 < 2 ^ 7 := range_lt w 31 25
  have hr2 : range w 11 7 < 2 ^ 5 := range_lt w 11 7
  have hjoin : range w 31 25 <<< 5 ||| range w 11 7 =
      range w 11 7 + range w 31 25 * 2 ^ 5 := by
    rw [Nat.shiftLeft_eq, Nat.lor_comm]
    exact lor_low_high 5 _ _ hr2 (by omega)
  have hsum : range w 11 7 + range w 31 25 * 2 ^ 5 < 2 ^ 12 := by omega
  simp only [imm_S, hjoin]
  by_cases h31 : bit w 31 = 1
  · rw [if_pos h31, if_pos h31]
    have hlor : range w 11 7 + range w 31 25 * 2 ^ 5 ||| 0b11111111111111111111 <<< 12 =
        range w 11 7 + range w 31 25 * 2 ^ 5 + 0xFFFFF000 := by
      rw [Nat.shiftLeft_eq]
      exact lor_low_high 12 _ _ hsum (by norm_num)
    rw [hlor, toInt32_high (by omega) (by omega)]
    push_cast
    omega
  · rw [if_neg h31, if_neg h31]
    rw [toInt32_lt (by omega)]
    push_cast
    omega

theorem imm_U_eq (w : Nat) : imm_U w = ((range w 31 12 : Nat) : Int) := by
  have hr : range w 31 12 < 2 ^ 20 := range_lt w 31 12
  simp only [imm_U]
  exact toInt32_lt (by omega)

theorem imm_B_eq (w : Nat) :
    imm_B w = if bit w 31 = 1
              then ((range w 11 8 * 2 + range w 30 25 * 2 ^ 5 + bit w 7 * 2 ^ 11 : Nat) : Int) - 4096
              else ((range w 11 8 * 2 + range w 30 25 * 2 ^ 5 + bit w 7 * 2 ^ 11 : Nat) : Int) := by
  have hb7 : bit w 7 < 2 := bit_lt w 7
  have hb31 : bit w 31 < 2 := bit_lt w 31
  have hr65 : range w 30 25 < 2 ^ 6 := range_lt w 30 25
  have hr41 : range w 11 8 < 2 ^ 4 := range_lt w 11 8
  have h1 : 0 ||| bit w 7 <<< 11 = bit w 7 * 2 ^ 11 := by
    rw [Nat.zero_or, Nat.shiftLeft_eq]
  have h2 : bit w 7 * 2 ^ 11 ||| range w 30 25 <<< 5 =
      range w 30 25 * 2 ^ 5 + bit w 7 * 2 ^ 11 := by
    rw [Nat.shiftLeft_eq, Nat.lor_comm]
    exact lor_low_high 11 _ _ (by omega) (by omega)
  have h3 : range w 30 25 * 2 ^ 5 + bit w 7 * 2 ^ 11 ||| bit w 31 <<< 12 =
      range w 30 25 * 2 ^ 5 + bit w 7 * 2 ^ 11 + bit w 31 * 2 ^ 12 := by
    rw [Nat.shiftLeft_eq]
    exact lor_low_high 12 _ _ (by omega) (by omega)
  have h4 : range w 30 25 * 2 ^ 5 + bit w 7 * 2 ^ 11 + bit w 31 * 2 ^ 12 |||
      range w 11 8 <<< 1 =
      range w 11 8 * 2 + (range w 30 25 * 2 ^ 5 + bit w 7 * 2 ^ 11 + bit w 31 * 2 ^ 12) := by
    rw [Nat.shiftLeft_eq, Nat.lor_comm]
    have he : range w 11 8 <<< 1 = range w 11 8 * 2 := by
      rw [Nat.shiftLeft_eq]
    rw [← he, Nat.shiftLeft_eq]
    exact lor_low_high 5 _ _ (by omega) (by omega)
  simp only [imm_B, h1, h2, h3, h4]
  by_cases h31 : bit w 31 = 1
  · rw [if_pos h31, if_pos h31]
    have e5 : range w 11 8 * 2 + (range w 30 25 * 2 ^ 5 + bit w 7 * 2 ^ 11 + bit w 31 * 2 ^ 12) =
        range w 11 8 * 2 + range w 30 25 * 2 ^ 5 + bit w 7 * 2 ^ 11 + 2 ^ 12 := by
      rw [h31]; ring
    rw [e5]
    have hlor : range w 11 8 * 2 + range w 30 25 * 2 ^ 5 + bit w 7 * 2 ^ 11 + 2 ^ 12 |||
        0b11111111111111111111 <<< 12 =
        range w 11 8 * 2 + range w 30 25 * 2 ^ 5 + bit w 7 * 2 ^ 11 + 0xFFFFF000 := by
      rw [Nat.shiftLeft_eq]
      exact lor_absorb 12 _ _ (by omega) (by norm_num)
    rw [hlor, toInt32_high (by omega) (by omega)]
    push_cast
    omega
  · have h0 : bit w 31 = 0 := by omega
    rw [if_neg h31, if_neg h31, h0]
    rw [toInt32_lt (by omega)]
    push_cast
    omega

theorem imm_J_eq (w : Nat) :
    imm_J w = if bit w 31 = 1
              then ((range w 30 21 * 2 + bit w 20 * 2 ^ 11 + range w 19 12 * 2 ^ 12 : Nat) : Int) - 1048576
              else ((range w 30 21 * 2 + bit w 20 * 2 ^ 11 + range w 19 12 * 2 ^ 12 : Nat) : Int) := by
  have hb31 : bit w 31 < 2 := bit_lt w 31
  have hb20 : bit w 20 < 2 := bit_lt w 20
  have hr1912 : range w 19 12 < 2 ^ 8 := range_lt w 19 12
  have hr3021 : range w 30 21 < 2 ^ 10 := range_lt w 30 21
  have j1 : bit w 31 <<< 20 ||| range w 19 12 <<< 12 =
      range w 19 12 * 2 ^ 12 + bit w 31 * 2 ^ 20 := by
    rw [Nat.shiftLeft_eq, Nat.shiftLeft_eq, Nat.lor_comm]
    exact lor_low_high 20 _ _ (by omega) (by omega)
  have j2 : range w 19 12 * 2 ^ 12 + bit w 31 * 2 ^ 20 ||| bit w 20 <<< 11 =
      bit w 20 * 2 ^ 11 + (range w 19 12 * 2 ^ 12 + bit w 31 * 2 ^ 20) := by
    rw [Nat.shiftLeft_eq, Nat.lor_comm]
    exact lor_low_high 12 _ _ (by omega) (by omega)
  have j3 : bit w 20 * 2 ^ 11 + (range w 19 12 * 2 ^ 12 + bit w 31 * 2 ^ 20) |||
      range w 30 21 <<< 1 =
      range w 30 21 * 2 + (bit w 20 * 2 ^ 11 + (range w 19 12 * 2 ^ 12 + bit w 31 * 2 ^ 20)) := by
    rw [Nat.lor_comm]
    have he : range w 30 21 <<< 1 = range w 30 21 * 2 := by
      rw [Nat.shiftLeft_eq]
    rw [he]
    exact lor_low_high 11 _ _ (by omega) (by omega)
  simp only [imm_J, j1, j2, j3]
  by_cases h31 : bit w 31 = 1
  · rw [if_pos h31, if_pos h31]
    have e4 : range w 30 21 * 2 + (bit w 20 * 2 ^ 11 + (range w 19 12 * 2 ^ 12 + bit w 31 * 2 ^ 20)) =
        range w 30 21 * 2 + bit w 20 * 2 ^ 11 + range w 19 12 * 2 ^ 12 + 2 ^ 20 := by
      rw [h31]; ring
    rw [e4]
    have hlor : range w 30 21 * 2 + bit w 20 * 2 ^ 11 + range w 19 12 * 2 ^ 12 + 2 ^ 20 |||
        0b111111111111 <<< 20 =
        range w 30 21 * 2 + bit w 20 * 2 ^ 11 + range w 19 12 * 2 ^ 12 + 0xFFF00000 := by
      rw [Nat.shiftLeft_eq]
      exact lor_absorb 20 _ _ (by omega) (by norm_num)
    rw [hlor, toInt32_high (by omega) (by omega)]
    push_cast
    omega
  · have h0 : bit w 31 = 0 := by omega
    rw [if_neg h31, if_neg h31, h0]
    rw [toInt32_lt (by omega)]
    push_cast
    omega

theorem opcode_eq (w : Nat) : opcode w = ((range w 6 0 : Nat) : Int) := by
  have h := range_lt w 6 0
  simp only [opcode]
  exact toInt32_lt (by omega)

theorem rd_eq (w : Nat) : rd w = ((range w 11 7 : Nat) : Int) := by
  have h := range_lt w 11 7
  simp only [rd]
  exact toInt32_lt (by omega)

theorem funct3_eq (w : Nat) : funct3 w = ((range w 14 12 : Nat) : Int) := by
  have h := range_lt w 14 12
  simp only [funct3]
  exact toInt32_lt (by omega)

theorem rs1_eq (w : Nat) : rs1 w = ((range w 19 15 : Nat) : Int) := by
  have h := range_lt w 19 15
  simp only [rs1]
  exact toInt32_lt (by omega)

theorem rs2_eq (w : Nat) : rs2 w = ((range w 24 20 : Nat) : Int) := by
  have h := range_lt w 24 20
  simp only [rs2]
  exact toInt32_lt (by omega)

theorem funct7_eq (w : Nat) : funct7 w = ((range w 31 25 : Nat) : Int) := by
  have h := range_lt w 31 25
  simp only [funct7]
  exact toInt32_lt (by omega)

set_option maxHeartbeats 2000000 in
theorem decodeFields_error_iff (op f3 f7 : Int) :
    decodeFields op f3 f7 = OP_ERROR ↔ ¬ knownEntry op f3 f7 := by
  unfold decodeFields knownEntry
  by_cases h1 : op = 0b0110111
  · simp only [if_pos h1, reduceCtorEq, false_iff, not_not]
    omega
  rw [if_neg h1]
  by_cases h2 : op = 0b0010111
  · simp only [if_pos h2, reduceCtorEq, false_iff, not_not]
    omega
  rw [if_neg h2]
  by_cases h3 : op = 0b1101111
  · simp only [if_pos h3, reduceCtorEq, false_iff, not_not]
    omega
  rw [if_neg h3]
  by_cases h4 : op = 0b1100111
  · simp only [if_pos h4, reduceCtorEq, false_iff, not_not]
    omega
  rw [if_neg h4]
  by_cases h5 : op = 0b1100011
  · rw [if_pos h5]
    repeat' split
    all_goals simp only [reduceCtorEq, false_iff, eq_self_iff_true, true_iff, not_not]
    all_goals omega
  rw [if_neg h5]
  by_cases h6 : op = 0b0000011
  · rw [if_pos h6]
    repeat' split
    all_goals simp only [reduceCtorEq, false_iff, eq_self_iff_true, true_iff, not_not]
    all_goals omega
  rw [if_neg h6]
  by_cases h7 : op = 0b0100011
  · rw [if_pos h7]
    repeat' split
    all_goals simp only [reduceCtorEq, false_iff, eq_self_iff_true, true_iff, not_not]
    all_goals omega
  rw [if_neg h7]
  by_cases h8 : op = 0b0010011
  · rw [if_pos h8]
    repeat' split
    all_goals simp only [reduceCtorEq, false_iff, eq_self_iff_true, true_iff, not_not]
    all_goals omega
  rw [if_neg h8]
  by_cases h9 : op = 0b0110011
  · rw [if_pos h9]
    repeat' split
    all_goals simp only [reduceCtorEq, false_iff, eq_self_iff_true, true_iff, not_not]
    all_goals omega
  rw [if_neg h9]
  simp only [eq_self_iff_true, true_iff]
  omega

/-- C2 counterexample: the word 0x80000000 has bit 31 set and all I-type
immediate bits 30:20 zero, yet imm_I returns -2048, not -4096 as claimed. -/
theorem imm_I_sign_cex :
    bit 0x80000000 31 = 1 ∧ range 0x80000000 30 20 = 0 ∧
    imm_I 0x80000000 = -2048 ∧ imm_I 0x80000000 ≠ -4096 := by decide

/-- C2 (amended): for every word with bit 31 set and all other I-type
immediate bits 30:20 zero, imm_I returns -2048 (the sign extension of the
12 bit field 0x800), not -4096. -/
theorem imm_I_sign_min (w : Nat) (h31 : bit w 31 = 1) (hlow : range w 30 20 = 0) :
    imm_I w = -2048 := by
  have e1 := h31
  rw [bit_eq] at e1
  have e2 := hlow
  rw [range_eq] at e2
  norm_num at e2
  rw [imm_I_eq, if_pos h31, range_eq]
  norm_num
  omega

/-- C2 witness: the amended theorem applied at the concrete word 0x80000000. -/
theorem imm_I_sign_min_w : imm_I 0x80000000 = -2048 :=
  imm_I_sign_min 0x80000000 (by decide) (by decide)

/-- C3 counterexample: csr of the word 0x80000000 is -2048, a negative value
outside [0, 4095], because the source returns imm_I() which sign extends. -/
theorem csr_cex : csr 0x80000000 = -2048 ∧ ¬ (0 ≤ csr 0x80000000) := by decide

/-- C3 (amended): csr() returns exactly imm_I(), the bit range 31:20 sign
extended from bit 31 by this accessor itself; the result is the zero extended
value of bits 31:20 only when bit 31 is clear. -/
theorem csr_signed (w : Nat) :
    csr w = imm_I w ∧
    csr w = (if bit w 31 = 1 then ((range w 31 20 : Nat) : Int) - 4096
             else ((range w 31 20 : Nat) : Int)) :=
  ⟨rfl, imm_I_eq w⟩

/-- C6: imm_U is never sign extended: for every word it returns the zero
extended, hence non negative, value of bits 31:12, and in particular
imm_U of the word 0x000000B7 is 0. -/
theorem imm_U_zero_extended :
    (∀ w : Nat, imm_U w = ((range w 31 12 : Nat) : Int) ∧ 0 ≤ imm_U w) ∧
    imm_U 0x000000B7 = 0 := by
  refine ⟨fun w => ⟨imm_U_eq w, ?_⟩, by decide⟩
  rw [imm_U_eq]
  omega

/-- C8: the word 0x00000013 decodes to OP_ADDI and its rd, rs1 and I type
immediate are all 0. -/
theorem nop_decodes :
    decode 0x00000013 = OP_ADDI ∧ rd 0x00000013 = 0 ∧ rs1 0x00000013 = 0 ∧
    imm_I 0x00000013 = 0 := by decide

/-- C9: for every word the field accessors return non negative values bounded
by their field widths: opcode in [0, 127], rd, rs1, rs2 in [0, 31], funct3 in
[0, 7] and funct7 in [0, 127]. -/
theorem fields_bounded (w : Nat) :
    0 ≤ opcode w ∧ opcode w ≤ 127 ∧
    0 ≤ rd w ∧ rd w ≤ 31 ∧
    0 ≤ funct3 w ∧ funct3 w ≤ 7 ∧
    0 ≤ rs1 w ∧ rs1 w ≤ 31 ∧
    0 ≤ rs2 w ∧ rs2 w ≤ 31 ∧
    0 ≤ funct7 w ∧ funct7 w ≤ 127 := by
  have b1 := range_lt w 6 0
  have b2 := range_lt w 11 7
  have b3 := range_lt w 14 12
  have b4 := range_lt w 19 15
  have b5 := range_lt w 24 20
  have b6 := range_lt w 31 25
  rw [show (6 - 0 + 1 : Nat) = 7 by norm_num] at b1
  rw [show (11 - 7 + 1 : Nat) = 5 by norm_num] at b2
  rw [show (14 - 12 + 1 : Nat) = 3 by norm_num] at b3
  rw [show (19 - 15 + 1 : Nat) = 5 by norm_num] at b4
  rw [show (24 - 20 + 1 : Nat) = 5 by norm_num] at b5
  rw [show (31 - 25 + 1 : Nat) = 7 by norm_num] at b6
  rw [opcode_eq, rd_eq, funct3_eq, rs1_eq, rs2_eq, funct7_eq]
  omega

/-- C10: for every word the branch and jump immediates are even and lie in
their format ranges: imm_B in [-4096, 4094] and imm_J in
[-1048576, 1048574]. -/
theorem bj_even_bounded (w : Nat) :
    imm_B w % 2 = 0 ∧ -4096 ≤ imm_B w ∧ imm_B w ≤ 4094 ∧
    imm_J w % 2 = 0 ∧ -1048576 ≤ imm_J w ∧ imm_J w ≤ 1048574 := by
  have hb7 := bit_lt w 7
  have hb20 := bit_lt w 20
  have hr65 := range_lt w 30 25
  have hr41 := range_lt w 11 8
  have hr1912 := range_lt w 19 12
  have hr3021 := range_lt w 30 21
  rw [show (30 - 25 + 1 : Nat) = 6 by norm_num] at hr65
  rw [show (11 - 8 + 1 : Nat) = 4 by norm_num] at hr41
  rw [show (19 - 12 + 1 : Nat) = 8 by norm_num] at hr1912
  rw [show (30 - 21 + 1 : Nat) = 10 by norm_num] at hr3021
  rw [imm_B_eq, imm_J_eq]
  constructor
  · split <;> push_cast <;> omega
  constructor
  · split <;> push_cast <;> omega
  constructor
  · split <;> push_cast <;> omega
  constructor
  · split <;> push_cast <;> omega
  constructor
  · split <;> push_cast <;> omega
  · split <;> push_cast <;> omega


theorem encS_fields (M : Nat) (hM : M < 4096) :
    range ((M / 32) <<< 25 + (M % 32) <<< 7) 31 25 = M / 32 ∧
    range ((M / 32) <<< 25 + (M % 32) <<< 7) 11 7 = M % 32 ∧
    bit ((M / 32) <<< 25 + (M % 32) <<< 7) 31 = M / 2048 := by
  refine ⟨?_, ?_, ?_⟩
  · rw [range_eq]
    simp only [Nat.shiftLeft_eq, Nat.reduceSub, Nat.reduceAdd, Nat.reducePow]
    omega
  · rw [range_eq]
    simp only [Nat.shiftLeft_eq, Nat.reduceSub, Nat.reduceAdd, Nat.reducePow]
    omega
  · rw [bit_eq]
    simp only [Nat.shiftLeft_eq, Nat.reducePow]
    have h2 : (M / 32 * 33554432 + M % 32 * 128) / 2147483648 = M / 32 / 64 := by
      rw [show (2147483648 : Nat) = 33554432 * 64 by norm_num, ← Nat.div_div_eq_div_mul]
      have h3 : (M / 32 * 33554432 + M % 32 * 128) / 33554432 = M / 32 := by omega
      rw [h3]
    rw [h2, Nat.div_div_eq_div_mul]
    omega

theorem encB_fields (M : Nat) (hM : M < 8192) :
    bit ((M / 4096) <<< 31 + (M / 32 % 64) <<< 25 + (M / 2 % 16) <<< 8 + (M / 2048 % 2) <<< 7)
      31 = M / 4096 ∧
    range ((M / 4096) <<< 31 + (M / 32 % 64) <<< 25 + (M / 2 % 16) <<< 8 + (M / 2048 % 2) <<< 7)
      30 25 = M / 32 % 64 ∧
    range ((M / 4096) <<< 31 + (M / 32 % 64) <<< 25 + (M / 2 % 16) <<< 8 + (M / 2048 % 2) <<< 7)
      11 8 = M / 2 % 16 ∧
    bit ((M / 4096) <<< 31 + (M / 32 % 64) <<< 25 + (M / 2 % 16) <<< 8 + (M / 2048 % 2) <<< 7)
      7 = M / 2048 % 2 := by
  refine ⟨?_, ?_, ?_, ?_⟩
  · rw [bit_eq]
    have hE : (M / 4096) <<< 31 + (M / 32 % 64) <<< 25 + (M / 2 % 16) <<< 8 +
        (M / 2048 % 2) <<< 7 =
        2 ^ 31 * (M / 4096) +
          (M / 32 % 64 * 2 ^ 25 + M / 2 % 16 * 2 ^ 8 + M / 2048 % 2 * 2 ^ 7) := by
      simp only [Nat.shiftLeft_eq]
      ring
    have hR : M / 32 % 64 * 2 ^ 25 + M / 2 % 16 * 2 ^ 8 + M / 2048 % 2 * 2 ^ 7 < 2 ^ 31 := by
      omega
    rw [hE, Nat.mul_add_div (by norm_num), Nat.div_eq_of_lt hR, Nat.add_zero]
    omega
  · rw [range_eq]
    have hE : (M / 4096) <<< 31 + (M / 32 % 64) <<< 25 + (M / 2 % 16) <<< 8 +
        (M / 2048 % 2) <<< 7 =
        2 ^ 25 * (2 ^ 6 * (M / 4096) + M / 32 % 64) +
          (M / 2 % 16 * 2 ^ 8 + M / 2048 % 2 * 2 ^ 7) := by
      simp only [Nat.shiftLeft_eq]
      ring
    have hR : M / 2 % 16 * 2 ^ 8 + M / 2048 % 2 * 2 ^ 7 < 2 ^ 25 := by omega
    rw [hE, Nat.mul_add_div (by norm_num), Nat.div_eq_of_lt hR, Nat.add_zero]
    omega
  · rw [range_eq]
    have hE : (M / 4096) <<< 31 + (M / 32 % 64) <<< 25 + (M / 2 % 16) <<< 8 +
        (M / 2048 % 2) <<< 7 =
        2 ^ 8 * (2 ^ 23 * (M / 4096) + M / 32 % 64 * 2 ^ 17 + M / 2 % 16) +
          M / 2048 % 2 * 2 ^ 7 := by
      simp only [Nat.shiftLeft_eq]
      ring
    have hR : M / 2048 % 2 * 2 ^ 7 < 2 ^ 8 := by omega
    rw [hE, Nat.mul_add_div (by norm_num), Nat.div_eq_of_lt hR, Nat.add_zero]
    omega
  · rw [bit_eq]
    have hE : (M / 4096) <<< 31 + (M / 32 % 64) <<< 25 + (M / 2 % 16) <<< 8 +
        (M / 2048 % 2) <<< 7 =
        2 ^ 7 * (2 ^ 24 * (M / 4096) + M / 32 % 64 * 2 ^ 18 + M / 2 % 16 * 2 + M / 2048 % 2) +
          0 := by
      simp only [Nat.shiftLeft_eq]
      ring
    have hR : (0 : Nat) < 2 ^ 7 := by norm_num
    rw [hE, Nat.mul_add_div (by norm_num), Nat.div_eq_of_lt hR, Nat.add_zero]
    omega

theorem encJ_fields (M : Nat) (hM : M < 2097152) :
    bit ((M / 1048576) <<< 31 + (M / 2 % 1024) <<< 21 + (M / 2048 % 2) <<< 20 +
      (M / 4096 % 256) <<< 12) 31 = M / 1048576 ∧
    range ((M / 1048576) <<< 31 + (M / 2 % 1024) <<< 21 + (M / 2048 % 2) <<< 20 +
      (M / 4096 % 256) <<< 12) 30 21 = M / 2 % 1024 ∧
    bit ((M / 1048576) <<< 31 + (M / 2 % 1024) <<< 21 + (M / 2048 % 2) <<< 20 +
      (M / 4096 % 256) <<< 12) 20 = M / 2048 % 2 ∧
    range ((M / 1048576) <<< 31 + (M / 2 % 1024) <<< 21 + (M / 2048 % 2) <<< 20 +
      (M / 4096 % 256) <<< 12) 19 12 = M / 4096 % 256 := by
  refine ⟨?_, ?_, ?_, ?_⟩
  · rw [bit_eq]
    have hE : (M / 1048576) <<< 31 + (M / 2 % 1024) <<< 21 + (M / 2048 % 2) <<< 20 +
        (M / 4096 % 256) <<< 12 =
        2 ^ 31 * (M / 1048576) +
          (M / 2 % 1024 * 2 ^ 21 + M / 2048 % 2 * 2 ^ 20 + M / 4096 % 256 * 2 ^ 12) := by
      simp only [Nat.shiftLeft_eq]
      ring
    have hR : M / 2 % 1024 * 2 ^ 21 + M / 2048 % 2 * 2 ^ 20 + M / 4096 % 256 * 2 ^ 12 <
        2 ^ 31 := by omega
    rw [hE, Nat.mul_add_div (by norm_num), Nat.div_eq_of_lt hR, Nat.add_zero]
    omega
  · rw [range_eq]
    have hE : (M / 1048576) <<< 31 + (M / 2 % 1024) <<< 21 + (M / 2048 % 2) <<< 20 +
        (M / 4096 % 256) <<< 12 =
        2 ^ 21 * (2 ^ 10 * (M / 1048576) + M / 2 % 1024) +
          (M / 2048 % 2 * 2 ^ 20 + M / 4096 % 256 * 2 ^ 12) := by
      simp only [Nat.shiftLeft_eq]
      ring
    have hR : M / 2048 % 2 * 2 ^ 20 + M / 4096 % 256 * 2 ^ 12 < 2 ^ 21 := by omega
    rw [hE, Nat.mul_add_div (by norm_num), Nat.div_eq_of_lt hR, Nat.add_zero]
    omega
  · rw [bit_eq]
    have hE : (M / 1048576) <<< 31 + (M / 2 % 1024) <<< 21 + (M / 2048 % 2) <<< 20 +
        (M / 4096 % 256) <<< 12 =
        2 ^ 20 * (2 ^ 11 * (M / 1048576) + M / 2 % 1024 * 2 + M / 2048 % 2) +
          M / 4096 % 256 * 2 ^ 12 := by
      simp only [Nat.shiftLeft_eq]
      ring
    have hR : M / 4096 % 256 * 2 ^ 12 < 2 ^ 20 := by omega
    rw [hE, Nat.mul_add_div (by norm_num), Nat.div_eq_of_lt hR, Nat.add_zero]
    omega
  · rw [range_eq]
    have hE : (M / 1048576) <<< 31 + (M / 2 % 1024) <<< 21 + (M / 2048 % 2) <<< 20 +
        (M / 4096 % 256) <<< 12 =
        2 ^ 12 * (2 ^ 19 * (M / 1048576) + M / 2 % 1024 * 2 ^ 9 + M / 2048 % 2 * 2 ^ 8 +
          M / 4096 % 256) + 0 := by
      simp only [Nat.shiftLeft_eq]
      ring
    have hR : (0 : Nat) < 2 ^ 12 := by norm_num
    rw [hE, Nat.mul_add_div (by norm_num), Nat.div_eq_of_lt hR, Nat.add_zero]
    omega

/-- C4: immediate encode and decode round trip: placing a representable
signed displacement into the I, S, B or J field positions of a word and
applying the matching accessor returns the original value (I and S over
[-2048, 2047], B over even values of [-4096, 4094], J over even values of
[-1048576, 1048574]). -/
theorem imm_roundtrip (v : Int) :
    (-2048 ≤ v ∧ v ≤ 2047 → imm_I (encode_I v) = v) ∧
    (-2048 ≤ v ∧ v ≤ 2047 → imm_S (encode_S v) = v) ∧
    (-4096 ≤ v ∧ v ≤ 4094 ∧ v % 2 = 0 → imm_B (encode_B v) = v) ∧
    (-1048576 ≤ v ∧ v ≤ 1048574 ∧ v % 2 = 0 → imm_J (encode_J v) = v) := by
  refine ⟨fun hv => ?_, fun hv => ?_, fun hv => ?_, fun hv => ?_⟩
  · rw [imm_I_eq]
    simp only [encode_I, Nat.shiftLeft_eq, bit_eq, range_eq, Nat.reduceSub,
      Nat.reduceAdd, Nat.reducePow]
    split <;> omega
  · obtain ⟨f1, f2, f3⟩ := encS_fields (v % 4096).toNat (by omega)
    rw [imm_S_eq]
    simp only [encode_S]
    rw [f1, f2, f3]
    split <;> omega
  · obtain ⟨g1, g2, g3, g4⟩ := encB_fields (v % 8192).toNat (by omega)
    rw [imm_B_eq]
    simp only [encode_B]
    rw [g1, g2, g3, g4]
    have d1 : (v % 8192).toNat / 2 / 16 = (v % 8192).toNat / 32 := by
      rw [Nat.div_div_eq_div_mul]
    have d2 : (v % 8192).toNat / 32 / 64 = (v % 8192).toNat / 2048 := by
      rw [Nat.div_div_eq_div_mul]
    have d3 : (v % 8192).toNat / 2048 / 2 = (v % 8192).toNat / 4096 := by
      rw [Nat.div_div_eq_div_mul]
    split <;> omega
  · obtain ⟨g1, g2, g3, g4⟩ := encJ_fields (v % 2097152).toNat (by omega)
    rw [imm_J_eq]
    simp only [encode_J]
    rw [g1, g2, g3, g4]
    have d1 : (v % 2097152).toNat / 2 / 1024 = (v % 2097152).toNat / 2048 := by
      rw [Nat.div_div_eq_div_mul]
    have d2 : (v % 2097152).toNat / 2048 / 2 = (v % 2097152).toNat / 4096 := by
      rw [Nat.div_div_eq_div_mul]
    have d3 : (v % 2097152).toNat / 4096 / 256 = (v % 2097152).toNat / 1048576 := by
      rw [Nat.div_div_eq_div_mul]
    split <;> omega

/-- C4 witness: the round trip theorem applied at concrete boundary values of
each format. -/
theorem imm_roundtrip_w :
    imm_I (encode_I (-2048)) = -2048 ∧ imm_I (encode_I 2047) = 2047 ∧
    imm_S (encode_S (-1)) = -1 ∧ imm_B (encode_B (-4096)) = -4096 ∧
    imm_B (encode_B 4094) = 4094 ∧ imm_J (encode_J 1048574) = 1048574 ∧
    imm_J (encode_J (-1048576)) = -1048576 :=
  ⟨(imm_roundtrip (-2048)).1 (by decide),
   (imm_roundtrip 2047).1 (by decide),
   (imm_roundtrip (-1)).2.1 (by decide),
   (imm_roundtrip (-4096)).2.2.1 (by decide),
   (imm_roundtrip 4094).2.2.1 (by decide),
   (imm_roundtrip 1048574).2.2.2 (by decide),
   (imm_roundtrip (-1048576)).2.2.2 (by decide)⟩

/-- C1: decode is a total function on instruction words: every word maps to
exactly one tag of the closed opCodes enumeration, and a word maps to
OP_ERROR exactly when its (opcode, funct3, funct7) triple matches no known
table entry. -/
theorem decode_total_error (w : Nat) :
    (∃! t : opCodes, decode w = t) ∧
    (decode w = OP_ERROR ↔ ¬ knownEntry (opcode w) (funct3 w) (funct7 w)) :=
  ⟨⟨decode w, rfl, fun _ hy => hy.symm⟩,
   decodeFields_error_iff (opcode w) (funct3 w) (funct7 w)⟩

/-- C5: inside the register arithmetic family and the immediate shift family,
where funct3 aliases two operations, funct7 = 0b0100000 selects the
subtract or arithmetic shift variant and funct7 = 0b0000000 the add or
logical shift variant. -/
theorem funct7_breaks_tie (w : Nat) :
    (opcode w = 0b0110011 → funct3 w = 0b000 → funct7 w = 0b0100000 → decode w = OP_SUB) ∧
    (opcode w = 0b0110011 → funct3 w = 0b000 → funct7 w = 0b0000000 → decode w = OP_ADD) ∧
    (opcode w = 0b0110011 → funct3 w = 0b101 → funct7 w = 0b0100000 → decode w = OP_SRA) ∧
    (opcode w = 0b0110011 → funct3 w = 0b101 → funct7 w = 0b0000000 → decode w = OP_SRL) ∧
    (opcode w = 0b0010011 → funct3 w = 0b101 → funct7 w = 0b0100000 → decode w = OP_SRAI) ∧
    (opcode w = 0b0010011 → funct3 w = 0b101 → funct7 w = 0b0000000 → decode w = OP_SRLI) := by
  unfold decode
  refine ⟨fun h1 h2 h3 => ?_, fun h1 h2 h3 => ?_, fun h1 h2 h3 => ?_,
    fun h1 h2 h3 => ?_, fun h1 h2 h3 => ?_, fun h1 h2 h3 => ?_⟩ <;>
    rw [h1, h2, h3] <;> decide

/-- C5 witness: the tie break theorem applied at six concrete instruction
words, one per selected variant. -/
theorem funct7_breaks_tie_w :
    decode 0x40000033 = OP_SUB ∧ decode 0x00000033 = OP_ADD ∧
    decode 0x40005033 = OP_SRA ∧ decode 0x00005033 = OP_SRL ∧
    decode 0x40005013 = OP_SRAI ∧ decode 0x00005013 = OP_SRLI :=
  ⟨(funct7_breaks_tie 0x40000033).1 (by decide) (by decide) (by decide),
   (funct7_breaks_tie 0x00000033).2.1 (by decide) (by decide) (by decide),
   (funct7_breaks_tie 0x40005033).2.2.1 (by decide) (by decide) (by decide),
   (funct7_breaks_tie 0x00005033).2.2.2.1 (by decide) (by decide) (by decide),
   (funct7_breaks_tie 0x40005013).2.2.2.2.1 (by decide) (by decide) (by decide),
   (funct7_breaks_tie 0x00005013).2.2.2.2.2 (by decide) (by decide) (by decide)⟩

/-- C7: the memory capacity is 1024 words and a transaction whose address
plus length does not lie within [0, SIZE) - in particular one whose address
equals the capacity - fails with the address error response, changes no
memory word and reads no data. -/
theorem transact_bounds (mem : Nat → Int) (t : Transaction)
    (h : ¬ (t.addr + t.len < SIZE)) :
    SIZE = 1024 ∧
    (b_transport mem t).1 = TlmResponse.addressError ∧
    (b_transport mem t).2.1 = mem ∧
    (b_transport mem t).2.2 = [] := by
  unfold b_transport
  rw [if_neg h]
  exact ⟨rfl, rfl, rfl, rfl⟩

/-- C7 witness: the bounds theorem applied to a write at address SIZE, one
past the end, against the all zero memory. -/
theorem transact_bounds_w :
    (b_transport (fun _ => (0 : Int)) ⟨SIZE, 0, true, []⟩).1 = TlmResponse.addressError ∧
    (b_transport (fun _ => (0 : Int)) ⟨SIZE, 0, true, []⟩).2.1 = (fun _ => (0 : Int)) ∧
    (b_transport (fun _ => (0 : Int)) ⟨SIZE, 0, true, []⟩).2.2 = [] := by
  have h := transact_bounds (fun _ => (0 : Int)) ⟨SIZE, 0, true, []⟩ (by decide)
  exact ⟨h.2.1, h.2.2.1, h.2.2.2⟩
